import Mathlib

/-!
# Verification of `smartrssparser`

A shallow embedding of `src/smartrssparser/smartrssparser.py` (Python 2).

Python values are modelled by the inductive type `PyVal`; dictionaries are
association lists with first-occurrence lookup, Python 2 byte strings and
unicode strings are the constructors `str` and `ustr`, `SmartFeedParserDict`
instances appearing *inside* values are the constructor `smart` (their backing
mapping), and `time.struct_time` values are `timeStruct` carrying the epoch
second they denote.  Raised exceptions are modelled with `Except PyErr`.
-/

set_option autoImplicit false

namespace SmartRss

/-- Model of the Python values flowing through the library. -/
inductive PyVal : Type where
  /-- a byte string (Python 2 `str`) -/
  | str (s : String) : PyVal
  /-- a unicode string (Python 2 `unicode`) -/
  | ustr (s : String) : PyVal
  | int (n : Int) : PyVal
  | bool (b : Bool) : PyVal
  /-- Python `None` -/
  | none : PyVal
  | list (l : List PyVal) : PyVal
  /-- a raw `dict` / `FeedParserDict`, as an association list (first
  occurrence wins on lookup) -/
  | dict (d : List (String × PyVal)) : PyVal
  /-- a `SmartFeedParserDict` nested inside a value, represented by its
  backing mapping `__feed_dict__` -/
  | smart (d : List (String × PyVal)) : PyVal
  /-- a `set` (not recursed into by the normalizer) -/
  | set (l : List PyVal) : PyVal
  /-- a `time.struct_time`, carrying the epoch second it denotes -/
  | timeStruct (t : Int) : PyVal

/-- Model of the Python exceptions raised by the library. -/
inductive PyErr : Type where
  | keyError (k : String) : PyErr
  | typeError (msg : String) : PyErr
  | indexError : PyErr
  | attributeError : PyErr
  | valueError : PyErr
  deriving DecidableEq, Repr

/-- First-occurrence association-list lookup: models Python `d[key]` /
`key in d` on a `dict`. -/
def dictGetRaw : List (String × PyVal) → String → Option PyVal
  | [], _ => Option.none
  | (k, v) :: rest, key => if k = key then some v else dictGetRaw rest key

/-- Overwriting insert: models Python `d[key] = v`. -/
def dictSet : List (String × PyVal) → String → PyVal → List (String × PyVal)
  | [], key, v => [(key, v)]
  | (k, w) :: rest, key, v =>
      if k = key then (k, v) :: rest else (k, w) :: dictSet rest key v

/-- Key removal: models Python `del d[key]`. -/
def dictRemove : List (String × PyVal) → String → List (String × PyVal)
  | [], _ => []
  | (k, w) :: rest, key =>
      if k = key then rest else (k, w) :: dictRemove rest key

/-- `SmartFeedParserDict.escape` (source lines 190-204): a unicode string is
re-encoded to utf-8 (modelled as the byte-string constructor with the same
contents); every other value passes through unchanged. -/
def escape : PyVal → PyVal
  | PyVal.ustr s => PyVal.str s
  | v => v

/-- Python `len(v)`: `some` for the types with a length (`str`, `unicode`,
`list`, `dict`, `set`, and `struct_time`, whose length is 9), `none` when
`len` raises `TypeError`. -/
def pyLen : PyVal → Option Nat
  | PyVal.str s => some s.length
  | PyVal.ustr s => some s.length
  | PyVal.list l => some l.length
  | PyVal.dict d => some d.length
  | PyVal.set l => some l.length
  | PyVal.timeStruct _ => some 9
  | _ => Option.none

mutual
/-- Python 2 `==` on the modelled values: `True == 1`, `u"a" == "a"` for
decodable text, structural equality on lists.  Dictionaries are compared
pointwise (faithful for dictionaries built in matching key order — the claims
only ever compare scalar identifiers).  Old-style class instances (`smart`)
compare by identity in Python, which a value model cannot observe; distinct
instances are unequal, so the model returns `false`. -/
def pyEq : PyVal → PyVal → Bool
  | PyVal.str a, PyVal.str b => a = b
  | PyVal.str a, PyVal.ustr b => a = b
  | PyVal.ustr a, PyVal.str b => a = b
  | PyVal.ustr a, PyVal.ustr b => a = b
  | PyVal.int a, PyVal.int b => a = b
  | PyVal.int a, PyVal.bool b => a = (if b then (1 : Int) else 0)
  | PyVal.bool a, PyVal.int b => (if a then (1 : Int) else 0) = b
  | PyVal.bool a, PyVal.bool b => a = b
  | PyVal.none, PyVal.none => true
  | PyVal.list a, PyVal.list b => pyEqList a b
  | PyVal.dict a, PyVal.dict b => pyEqPairs a b
  | PyVal.set a, PyVal.set b => pyEqList a b
  | PyVal.timeStruct a, PyVal.timeStruct b => a = b
  | _, _ => false

/-- Pointwise `pyEq` on lists. -/
def pyEqList : List PyVal → List PyVal → Bool
  | [], [] => true
  | a :: as_, b :: bs => pyEq a b && pyEqList as_ bs
  | _, _ => false

/-- Pointwise `pyEq` on association lists. -/
def pyEqPairs : List (String × PyVal) → List (String × PyVal) → Bool
  | [], [] => true
  | (k1, v1) :: r1, (k2, v2) :: r2 => k1 = k2 && pyEq v1 v2 && pyEqPairs r1 r2
  | _, _ => false
end

/-- `return_longest_element` (source lines 639-718).  `len` is attempted on
both operands; an operand on which it raises is "bozo".  Both bozo: raise
`TypeError` when `complain == True` (Python equality, so `1 == True` also
raises), otherwise return `complain` itself.  One bozo: return the other.
Otherwise the strictly longer operand, ties to `elm1`. -/
def return_longest_element (elm1 elm2 : PyVal) (complain : PyVal := PyVal.bool true) :
    Except PyErr PyVal :=
  match pyLen elm1, pyLen elm2 with
  | Option.none, Option.none =>
      if pyEq complain (PyVal.bool true) then
        Except.error (PyErr.typeError "neither elm1 or elm2 have len() properties")
      else
        Except.ok complain
  | Option.none, some _ => Except.ok elm2
  | some _, Option.none => Except.ok elm1
  | some l1, some l2 =>
      if l1 > l2 then Except.ok elm1
      else if l1 < l2 then Except.ok elm2
      else Except.ok elm1

/-- The loop of `return_longest_list_element` (source lines 629-634):
`rllAux remaining i best_index best_len` walks the remaining elements, `i`
being the index of the head; an element without a length raises `TypeError`
(`len(list_[ii])`); an element strictly longer than the best so far becomes
the new best. -/
def rllAux : List PyVal → Nat → Nat → Nat → Except PyErr Nat
  | [], _, bi, _ => Except.ok bi
  | e :: rest, i, bi, bl =>
      match pyLen e with
      | Option.none => Except.error (PyErr.typeError "object has no len()")
      | some n =>
          if n > bl then rllAux rest (i + 1) i n else rllAux rest (i + 1) bi bl

/-- `return_longest_list_element` (source lines 607-636): `TypeError` unless
the argument is a proper list; then the loop starting from
`longest_index = 0, longest_element = 0`, and finally `list_[longest_index]`,
which raises `IndexError` on the empty list. -/
def return_longest_list_element (v : PyVal) : Except PyErr PyVal :=
  match v with
  | PyVal.list l =>
      match rllAux l 0 0 0 with
      | Except.error e => Except.error e
      | Except.ok bi =>
          match l.get? bi with
          | some x => Except.ok x
          | Option.none => Except.error PyErr.indexError
  | _ => Except.error (PyErr.typeError "received a list that wasn't of type <list>")

mutual
/-- `make_smart_object` (source lines 553-604): a `SmartFeedParserDict` is
returned as-is; a value with `keys` (a raw dict) becomes a new
`SmartFeedParserDict` whose every key is bound to the recursively normalized
value; a list has each element replaced in place by its normalized form;
everything else goes through `escape` (so sets, which are neither dicts nor
lists nor unicode, come back unchanged). -/
def make_smart_object : PyVal → PyVal
  | PyVal.smart d => PyVal.smart d
  | PyVal.dict d => PyVal.smart (msoPairs d)
  | PyVal.list l => PyVal.list (msoList l)
  | v => escape v

/-- Elementwise `make_smart_object` on a list. -/
def msoList : List PyVal → List PyVal
  | [] => []
  | v :: rest => make_smart_object v :: msoList rest

/-- Valuewise `make_smart_object` on the key/value pairs of a dict. -/
def msoPairs : List (String × PyVal) → List (String × PyVal)
  | [] => []
  | (k, v) :: rest => (k, make_smart_object v) :: msoPairs rest
end

/-- One record handed to `smart_new_story_filter`: a plain mapping accessed
with dictionary notation (as in the function's doctests). -/
abbrev StoryRec := List (String × PyVal)

/-- `smart_new_story_filter` (source lines 798-865).  Builds the identifier
list in order, using Python `None` as the placeholder for a record missing
the identifier key; returns the flag "warning was emitted" (true exactly when
every record was missing the key) together with `stories[0:pivot]`, where
`pivot` is the index of the first identifier equal (`pyEq`) to
`most_recent_identifier`, or the length of the list when none is. -/
def smart_new_story_filter (stories_object : List StoryRec) (identifier : String)
    (most_recent_identifier : PyVal := PyVal.str "") : Bool × List StoryRec :=
  let identifier_list : List PyVal :=
    stories_object.map (fun elm =>
      match dictGetRaw elm identifier with
      | some v => v
      | Option.none => PyVal.none)
  let all_none : Bool :=
    stories_object.all (fun elm => (dictGetRaw elm identifier).isNone)
  let pivot_identifier_index : Nat :=
    if identifier_list.any (fun e => pyEq e most_recent_identifier) then
      identifier_list.findIdx (fun e => pyEq e most_recent_identifier)
    else
      identifier_list.length
  (all_none, stories_object.take pivot_identifier_index)

/-! ## The record type `SmartFeedParserDict` -/

/-- The ambient time and randomness observed by one call into the record:
`now` is `time.time()` (whole epoch seconds), `jitter` the value drawn by
`random.randint(-fuzz_update_time, fuzz_update_time)`.  Both are external
inputs of the code; successive calls may observe different values. -/
structure TimeEnv : Type where
  now : Int
  jitter : Int

/-- Injective second-resolution model of `time.strftime` applied to
`time.gmtime` of an epoch second, with the default format
`"%Y-%m-%dT%H:%M:%SZ"` (which determines the epoch second uniquely). -/
def fmtTime (t : Int) : String := "T" ++ toString t ++ "Z"

/-- Decimal-digit parsing of a character list (helper for `parseTime`). -/
def charsToNatAux : List Char → Nat → Option Nat
  | [], acc => some acc
  | c :: rest, acc =>
      if '0' ≤ c ∧ c ≤ '9' then charsToNatAux rest (acc * 10 + (c.toNat - 48))
      else Option.none

/-- Strip a single trailing `Z` (helper for `parseTime`). -/
def stripZ : List Char → Option (List Char)
  | [] => Option.none
  | ['Z'] => some []
  | c :: rest => (stripZ rest).map (c :: ·)

/-- Model of `calendar.timegm(time.strptime(s, fmt))`: the partial inverse of
`fmtTime`; `none` models `strptime` raising `ValueError`. -/
def parseTime (s : String) : Option Int :=
  match s.data with
  | 'T' :: rest =>
      match stripZ rest with
      | some ('-' :: ds) =>
          if ds.isEmpty then Option.none
          else (charsToNatAux ds 0).map (fun n => -(n : Int))
      | some ds =>
          if ds.isEmpty then Option.none
          else (charsToNatAux ds 0).map (fun n => (n : Int))
      | Option.none => Option.none
  | _ => Option.none

/-- The state of a `SmartFeedParserDict` instance (source lines 206-241):
the backing mapping `__feed_dict__`, the `fuzz_update_time` bound, and the
instance attribute `update_time` written (only) by the last line of
`_get_update_time`.  The extension mechanism `create_item` is not exercised
by any claim and is not modelled; the `_get_*` resolvers are the fixed
class-level set. -/
structure SmartRec : Type where
  feed_dict : List (String × PyVal)
  fuzz_update_time : Nat := 1
  update_time_attr : Option PyVal := Option.none

/-- `self.get(name, default)` for a non-reserved `name` (all the resolvers'
internal reads use the non-reserved keys `items`, `entries`, `content`,
`description`, `summary`, `links`): `__getitem__` escapes a found backing
value, `KeyError` yields the default unescaped. -/
def getWithDefault (d : List (String × PyVal)) (key : String) (dflt : PyVal) : PyVal :=
  match dictGetRaw d key with
  | some v => escape v
  | Option.none => dflt

/-- Python iteration over a value.  Lists, sets, byte/unicode strings
(character by character) and dicts (over their keys) iterate; iterating a
nested `SmartFeedParserDict` calls `__getitem__(0)`, which raises
`KeyError(0)`; numbers and `None` raise `TypeError`.  A `struct_time` does
iterate in Python (9 fields), but the model does not carry the fields, and no
modelled path iterates one. -/
def iterOf : PyVal → Except PyErr (List PyVal)
  | PyVal.list l => Except.ok l
  | PyVal.set l => Except.ok l
  | PyVal.str s => Except.ok (s.data.map (fun c => PyVal.str (String.singleton c)))
  | PyVal.ustr s => Except.ok (s.data.map (fun c => PyVal.ustr (String.singleton c)))
  | PyVal.dict d => Except.ok (d.map (fun kv => PyVal.str kv.1))
  | PyVal.smart _ => Except.error (PyErr.keyError "0")
  | _ => Except.error (PyErr.typeError "iteration over non-sequence")

/-- `key in v` for the non-reserved keys the resolvers test (`type`, `href`,
`value`): backing-mapping membership for a raw dict or a nested
`SmartFeedParserDict` (whose `__contains__` reduces to a backing lookup on a
non-reserved key), substring test on strings, `TypeError` otherwise. -/
def subContains (v : PyVal) (key : String) : Except PyErr Bool :=
  match v with
  | PyVal.dict d => Except.ok (dictGetRaw d key).isSome
  | PyVal.smart d => Except.ok (dictGetRaw d key).isSome
  | PyVal.str s => Except.ok (decide (2 ≤ (s.splitOn key).length))
  | PyVal.ustr s => Except.ok (decide (2 ≤ (s.splitOn key).length))
  | _ => Except.error (PyErr.typeError "argument is not iterable")

/-- `v[key]` for the non-reserved keys the resolvers read: raw value from a
dict, escaped value from a nested `SmartFeedParserDict` (its `__getitem__`),
`KeyError` when missing, `TypeError` on non-mappings. -/
def subGet (v : PyVal) (key : String) : Except PyErr PyVal :=
  match v with
  | PyVal.dict d =>
      match dictGetRaw d key with
      | some w => Except.ok w
      | Option.none => Except.error (PyErr.keyError key)
  | PyVal.smart d =>
      match dictGetRaw d key with
      | some w => Except.ok (escape w)
      | Option.none => Except.error (PyErr.keyError key)
  | _ => Except.error (PyErr.typeError "value is unsubscriptable")

/-- First loop of `_get_link` (source lines 247-249): the first entry whose
`type` is present and equals `"text/html"` and which has an `href` yields
that `href`. -/
def linkPass1 : List PyVal → Except PyErr (Option PyVal)
  | [] => Except.ok Option.none
  | e :: rest => do
      let hasType ← subContains e "type"
      if hasType then
        let tv ← subGet e "type"
        if pyEq tv (PyVal.str "text/html") then
          let hasHref ← subContains e "href"
          if hasHref then
            let h ← subGet e "href"
            Except.ok (some h)
          else linkPass1 rest
        else linkPass1 rest
      else linkPass1 rest

/-- Second loop of `_get_link` (source lines 252-254): the first entry with
any `href` yields it. -/
def linkPass2 : List PyVal → Except PyErr (Option PyVal)
  | [] => Except.ok Option.none
  | e :: rest => do
      let hasHref ← subContains e "href"
      if hasHref then
        let h ← subGet e "href"
        Except.ok (some h)
      else linkPass2 rest

/-- `_get_link` (source lines 243-257): scan `self.get("links", [])` twice,
falling back to the empty string. -/
def get_link (d : List (String × PyVal)) : Except PyErr PyVal := do
  let links := getWithDefault d "links" (PyVal.list [])
  let entries ← iterOf links
  match ← linkPass1 entries with
  | some h => Except.ok h
  | Option.none =>
      match ← linkPass2 entries with
      | some h => Except.ok h
      | Option.none => Except.ok (PyVal.str "")

/-- `_get_story_content` (source lines 280-292):
`reduce(return_longest_element, [get('content',''), get('description',''),
get('summary','')])`; when the winner is a list, `winner[0]["value"]`. -/
def get_story_content (d : List (String × PyVal)) : Except PyErr PyVal := do
  let c := getWithDefault d "content" (PyVal.str "")
  let de := getWithDefault d "description" (PyVal.str "")
  let su := getWithDefault d "summary" (PyVal.str "")
  let l1 ← return_longest_element c de
  let longest_elm ← return_longest_element l1 su
  match longest_elm with
  | PyVal.list l =>
      match l.get? 0 with
      | some e => subGet e "value"
      | Option.none => Except.error PyErr.indexError
  | v => Except.ok v

/-- `_get_update_time` (source lines 294-360), as a function of the backing
mapping, the current `update_time` instance attribute, and the observed
`TimeEnv`.  Returns the produced value together with the new attribute.
If the backing mapping has a literal `update_time`, that raw value is
returned and the attribute is untouched.  Otherwise the candidate is
`strftime` of `updated_parsed` when that is a `struct_time` (`strftime`
raising `TypeError`, and a missing key raising `KeyError`, are both caught),
else `strftime(gmtime(time.time() + jitter))`; the candidate is re-parsed
(`ValueError` turning into `now + 5`) and clamped to `now` when strictly in
the future; finally the attribute `self.update_time` is assigned — note that
no read path ever consults this attribute. -/
def get_update_time (d : List (String × PyVal)) (attr : Option PyVal)
    (env : TimeEnv) : PyVal × Option PyVal :=
  match dictGetRaw d "update_time" with
  | some v => (v, attr)
  | Option.none =>
      let update_time : String :=
        match dictGetRaw d "updated_parsed" with
        | some (PyVal.timeStruct t) => fmtTime t
        | _ => fmtTime (env.now + env.jitter)
      let elm_epoch_time : Int :=
        match parseTime update_time with
        | some t => t
        | Option.none => env.now + 5
      let update_time :=
        if elm_epoch_time > env.now then fmtTime env.now else update_time
      (PyVal.str update_time, some (PyVal.str update_time))

/-- `_get_stories` (source lines 365-386): the longest of
`self.get("items", [])`, `self.get("entries", [])`, `self.get("content", [])`
(via `return_longest_list_element` on the three-element list), each of whose
elements is then passed through `make_smart_object`. -/
def get_stories (d : List (String × PyVal)) : Except PyErr PyVal := do
  let items := getWithDefault d "items" (PyVal.list [])
  let entries := getWithDefault d "entries" (PyVal.list [])
  let content := getWithDefault d "content" (PyVal.list [])
  let raw_stories ← return_longest_list_element (PyVal.list [items, entries, content])
  let elems ← iterOf raw_stories
  Except.ok (PyVal.list (elems.map make_smart_object))

/-- The names for which the class defines a `_get_<name>` method, i.e. the
names `__getitem__`, `__contains__` and `__delitem__` treat specially.  Note
the computed content field is `story_content` (method `_get_story_content`);
there is no `_get_content`. -/
def reservedNames : List String :=
  ["link", "source_unescaped_html", "story_content", "update_time", "stories"]

/-- `__getitem__` (source lines 443-488): when a `_get_<name>` method exists
it is called, otherwise the backing mapping is consulted (`KeyError` when
absent); every result is passed through `escape`.  `_get_source_unescaped_html`
performs a network fetch (an external collaborator); its missing-attribute
shim maps failures to `KeyError`, which is how the model renders it. -/
def getItem (r : SmartRec) (env : TimeEnv) (name : String) :
    Except PyErr PyVal × SmartRec :=
  if name = "link" then
    ((get_link r.feed_dict).map escape, r)
  else if name = "source_unescaped_html" then
    (Except.error (PyErr.keyError name), r)
  else if name = "story_content" then
    ((get_story_content r.feed_dict).map escape, r)
  else if name = "update_time" then
    let (v, attr) := get_update_time r.feed_dict r.update_time_attr env
    (Except.ok (escape v), { r with update_time_attr := attr })
  else if name = "stories" then
    ((get_stories r.feed_dict).map escape, r)
  else
    match dictGetRaw r.feed_dict name with
    | some v => (Except.ok (escape v), r)
    | Option.none => (Except.error (PyErr.keyError name), r)

/-- `__contains__` / `has_key` (source lines 388-416): `__getitem__`, with
`KeyError` mapped to `false` and success to `true`; any other exception
propagates. -/
def containsKey (r : SmartRec) (env : TimeEnv) (name : String) :
    Except PyErr Bool × SmartRec :=
  match getItem r env name with
  | (Except.ok _, r2) => (Except.ok true, r2)
  | (Except.error (PyErr.keyError _), r2) => (Except.ok false, r2)
  | (Except.error e, r2) => (Except.error e, r2)

/-- `__setitem__` (source lines 518-550): a raw write to the backing
mapping. -/
def setItem (r : SmartRec) (name : String) (v : PyVal) : SmartRec :=
  { r with feed_dict := dictSet r.feed_dict name v }

/-- `__delitem__` (source lines 490-513): when a `_get_<name>` method exists,
`delattr(self, "_get_<name>")` — which raises `AttributeError` because the
method lives on the class, not in the instance dictionary; else delete from
the backing mapping; else `KeyError`. -/
def delItem (r : SmartRec) (name : String) : Except PyErr SmartRec :=
  if reservedNames.contains name then Except.error PyErr.attributeError
  else if (dictGetRaw r.feed_dict name).isSome then
    Except.ok { r with feed_dict := dictRemove r.feed_dict name }
  else Except.error (PyErr.keyError name)

/-- `safe_delete` (source lines 170-188): `__delitem__` with `KeyError`
swallowed (only `KeyError` — the `AttributeError` of a reserved name still
propagates). -/
def safe_delete (r : SmartRec) (name : String) : Except PyErr SmartRec :=
  match delItem r name with
  | Except.ok r2 => Except.ok r2
  | Except.error (PyErr.keyError _) => Except.ok r
  | Except.error e => Except.error e

/-- `update` (source lines 126-149): `safe_delete` every incoming key, then
merge the incoming pairs into the backing mapping. -/
def updateRec (r : SmartRec) (upd : List (String × PyVal)) : Except PyErr SmartRec := do
  let r2 ← upd.foldlM (fun acc kv => safe_delete acc kv.1) r
  Except.ok { r2 with
    feed_dict := upd.foldl (fun fd kv => dictSet fd kv.1 kv.2) r2.feed_dict }

/-! ## Helper lemmas -/

theorem escape_escape (v : PyVal) : escape (escape v) = escape v := by
  cases v <;> rfl

theorem pyEq_none_left (w : PyVal) (h : w ≠ PyVal.none) : pyEq PyVal.none w = false := by
  cases w <;> first | rfl | exact absurd rfl h

mutual
theorem mso_idem : ∀ v : PyVal, make_smart_object (make_smart_object v) = make_smart_object v
  | PyVal.str _ => rfl
  | PyVal.ustr _ => rfl
  | PyVal.int _ => rfl
  | PyVal.bool _ => rfl
  | PyVal.none => rfl
  | PyVal.list l => by
      show PyVal.list (msoList (msoList l)) = PyVal.list (msoList l)
      rw [msoList_idem l]
  | PyVal.dict _ => rfl
  | PyVal.smart _ => rfl
  | PyVal.set _ => rfl
  | PyVal.timeStruct _ => rfl

theorem msoList_idem : ∀ l : List PyVal, msoList (msoList l) = msoList l
  | [] => rfl
  | v :: rest => by
      show make_smart_object (make_smart_object v) :: msoList (msoList rest)
          = make_smart_object v :: msoList rest
      rw [mso_idem v, msoList_idem rest]
end

theorem dictGetRaw_msoPairs (d : List (String × PyVal)) (k : String) :
    dictGetRaw (msoPairs d) k = (dictGetRaw d k).map make_smart_object := by
  induction d with
  | nil => rfl
  | cons kv rest ih =>
      obtain ⟨key, v⟩ := kv
      by_cases h : key = k
      · simp [msoPairs, dictGetRaw, h]
      · simp [msoPairs, dictGetRaw, h, ih]

theorem msoList_length (l : List PyVal) : (msoList l).length = l.length := by
  induction l with
  | nil => rfl
  | cons v rest ih => simp [msoList, ih]

theorem msoList_getD (l : List PyVal) (i : Nat) (h : i < l.length) :
    (msoList l).getD i PyVal.none = make_smart_object (l.getD i PyVal.none) := by
  induction l generalizing i with
  | nil => simp at h
  | cons v rest ih =>
      cases i with
      | zero => rfl
      | succ j =>
          have hj : j < rest.length := by simpa using h
          simpa [msoList] using ih j hj

/-- The "scalar" side of the normalizer's case analysis: not a dict, list,
set or `SmartFeedParserDict`. -/
def isScalar : PyVal → Bool
  | PyVal.dict _ => false
  | PyVal.list _ => false
  | PyVal.set _ => false
  | PyVal.smart _ => false
  | _ => true

/-- Membership check used by `smart_new_story_filter`: the identifier value
of a record, with `None` as the placeholder for a missing key. -/
def idVal (identifier : String) (r : StoryRec) : PyVal :=
  match dictGetRaw r identifier with
  | some v => v
  | Option.none => PyVal.none

/-! ## Claim theorems: C4, C1, C2, C6, C7 -/

/-- Claim C4 (code bug): `return_longest_element` is claimed (and documented
in its own docstring) to raise only when `complain` is the boolean `True`,
returning any other `complain` value as-is, non-boolean truthy values
included; but the code tests `complain == True`, and in Python `1 == True`,
so `return_longest_element(42, 43, complain=1)` raises `TypeError` instead
of returning `1`.  This theorem evaluates the model at the failing input,
and contrasts it with the documented `complain=False` case. -/
theorem C4_complain_eq_true_bug :
    return_longest_element (PyVal.int 42) (PyVal.int 43) (PyVal.int 1)
      = Except.error (PyErr.typeError "neither elm1 or elm2 have len() properties")
    ∧ return_longest_element (PyVal.int 42) (PyVal.int 43) (PyVal.bool false)
      = Except.ok (PyVal.bool false) :=
  ⟨rfl, rfl⟩

/-- Claim C1 (code bug): the final line of `_get_update_time` writes the
instance attribute `self.update_time`, but the short-circuit at the top of
the method checks `self.__feed_dict__.has_key("update_time")` — the backing
mapping, which the attribute write never touches.  The cache is therefore
dead: on a record lacking both `update_time` and `updated_parsed`, a first
access at `now = 1000` with jitter draw `-1` (legal for the default
`fuzz_update_time = 1`) returns the formatted time of epoch `999` and sets
the attribute, and a second access on the resulting instance at the same
`now` with jitter draw `0` recomputes and returns the formatted time of
epoch `1000` — a different string. -/
theorem C1_update_time_cache_dead :
    (getItem { feed_dict := [] } ⟨1000, -1⟩ "update_time").1
        = Except.ok (PyVal.str (fmtTime 999))
    ∧ ((getItem { feed_dict := [] } ⟨1000, -1⟩ "update_time").2).update_time_attr
        = some (PyVal.str (fmtTime 999))
    ∧ (getItem ((getItem { feed_dict := [] } ⟨1000, -1⟩ "update_time").2)
        ⟨1000, 0⟩ "update_time").1 = Except.ok (PyVal.str (fmtTime 1000))
    ∧ (PyVal.str (fmtTime 999)) ≠ (PyVal.str (fmtTime 1000)) := by
  refine ⟨rfl, rfl, rfl, ?_⟩
  intro h
  injection h with h2
  exact absurd h2 (by decide)

/-- Claim C2, counterexample: with every record missing the identifier key,
the filter is claimed to return the full input list for *every* watermark;
but the placeholder for a missing identifier is Python `None`, so the
watermark `None` matches the placeholder at index 0 and the filter returns
the empty prefix instead of the full list. -/
theorem C2_none_watermark_counterexample :
    (smart_new_story_filter [[("title", PyVal.str "Apple")]] "foo" PyVal.none).2 = []
    ∧ ([] : List StoryRec) ≠ [[("title", PyVal.str "Apple")]] :=
  ⟨rfl, fun h => List.noConfusion h⟩

/-- Claim C2 as amended: for a non-empty record list in which every record
misses the identifier key, and any watermark other than `None` (the missing
placeholder), the filter emits the warning and returns the full list
unchanged. -/
theorem C2_all_missing_fail_open (stories : List StoryRec) (identifier : String)
    (w : PyVal) (_hne : stories ≠ [])
    (hmiss : stories.all (fun elm => (dictGetRaw elm identifier).isNone) = true)
    (hw : w ≠ PyVal.none) :
    smart_new_story_filter stories identifier w = (true, stories) := by
  unfold smart_new_story_filter
  have hmap : ∀ e ∈ stories.map (fun elm =>
      match dictGetRaw elm identifier with
      | some v => v
      | Option.none => PyVal.none), e = PyVal.none := by
    intro e he
    rcases List.mem_map.mp he with ⟨r, hr, hre⟩
    have := List.all_eq_true.mp hmiss r hr
    rcases hlook : dictGetRaw r identifier with _ | v
    · rw [hlook] at hre; exact hre.symm
    · rw [hlook] at this; simp at this
  have hany : (stories.map (fun elm =>
      match dictGetRaw elm identifier with
      | some v => v
      | Option.none => PyVal.none)).any (fun e => pyEq e w) = false := by
    rw [List.any_eq_false]
    intro e he
    rw [hmap e he, pyEq_none_left w hw]
    simp
  simp only [hmiss, hany, Bool.false_eq_true, if_false, List.length_map,
    List.take_length]

/-- Claim C6: the recursive normalizer is idempotent on every input, and
returns a value that is already a `SmartFeedParserDict` as-is. -/
theorem C6_make_smart_object_idempotent :
    (∀ v : PyVal, make_smart_object (make_smart_object v) = make_smart_object v)
    ∧ ∀ d, make_smart_object (PyVal.smart d) = PyVal.smart d :=
  ⟨mso_idem, fun _ => rfl⟩

/-- Claim C7: the normalizer's case analysis (it is total by construction):
a raw dict becomes a `SmartFeedParserDict` binding every key to the
recursively normalized original value; a list keeps its length with every
element normalized in place; a set comes back unchanged without recursion;
every other scalar is passed through `escape`. -/
theorem C7_make_smart_object_cases :
    (∀ d : List (String × PyVal), ∃ d2,
        make_smart_object (PyVal.dict d) = PyVal.smart d2
        ∧ ∀ k, dictGetRaw d2 k = (dictGetRaw d k).map make_smart_object)
    ∧ (∀ l : List PyVal, ∃ l2,
        make_smart_object (PyVal.list l) = PyVal.list l2
        ∧ l2.length = l.length
        ∧ ∀ i, i < l.length →
            l2.getD i PyVal.none = make_smart_object (l.getD i PyVal.none))
    ∧ (∀ l, make_smart_object (PyVal.set l) = PyVal.set l)
    ∧ (∀ v, isScalar v = true → make_smart_object v = escape v) := by
  refine ⟨?_, ?_, ?_, ?_⟩
  · intro d
    exact ⟨msoPairs d, rfl, dictGetRaw_msoPairs d⟩
  · intro l
    exact ⟨msoList l, rfl, msoList_length l, msoList_getD l⟩
  · intro l; rfl
  · intro v hv
    cases v <;> first | rfl | exact absurd hv (by simp [isScalar])

/-- Witness for C7: the scalar case at `5` and the list case at a concrete
one-element list. -/
theorem C7_make_smart_object_cases_witness :
    make_smart_object (PyVal.int 5) = escape (PyVal.int 5)
    ∧ ∃ l2, make_smart_object (PyVal.list [PyVal.ustr "q"]) = PyVal.list l2
        ∧ l2.getD 0 PyVal.none = make_smart_object (PyVal.ustr "q") := by
  refine ⟨C7_make_smart_object_cases.2.2.2 (PyVal.int 5) rfl, ?_⟩
  obtain ⟨l2, h1, _, h3⟩ := C7_make_smart_object_cases.2.1 [PyVal.ustr "q"]
  exact ⟨l2, h1, h3 0 (by decide)⟩

/-- Witness for C2 as amended: the docstring's own example — all records
missing `"foo"`, watermark `"Bannanna"` — returns the full list with the
warning flag set. -/
theorem C2_all_missing_fail_open_witness :
    smart_new_story_filter
      [[("title", PyVal.str "Apple")], [("title", PyVal.str "Bannanna")],
       [("title", PyVal.str "Grape")]] "foo" (PyVal.str "Bannanna")
    = (true, [[("title", PyVal.str "Apple")], [("title", PyVal.str "Bannanna")],
       [("title", PyVal.str "Grape")]]) := by
  refine C2_all_missing_fail_open _ _ _ (fun h => List.noConfusion h) rfl ?_
  intro h
  exact PyVal.noConfusion h

/-! ## Claim theorems: C9, C3 -/

/-- Whether an optional value is a `struct_time` (used to phrase "the
`updated_parsed` field is missing or unparseable"). -/
def isStructOpt : Option PyVal → Bool
  | some (PyVal.timeStruct _) => true
  | _ => false

theorem getItem_update_time (r : SmartRec) (env : TimeEnv) :
    getItem r env "update_time" =
      ((Except.ok (escape (get_update_time r.feed_dict r.update_time_attr env).1)),
        { r with update_time_attr := (get_update_time r.feed_dict r.update_time_attr env).2 }) := by
  show (match get_update_time r.feed_dict r.update_time_attr env with
        | (v, attr) => ((Except.ok (escape v) : Except PyErr PyVal),
            { r with update_time_attr := attr })) = _
  rcases get_update_time r.feed_dict r.update_time_attr env with ⟨v, attr⟩
  rfl

/-- Claim C9: the monotonic clamp.  On a record whose backing mapping lacks a
literal `update_time`, if the computed candidate re-parses (with the same
format) to an epoch strictly greater than the current time, the access
returns the current time formatted instead — both when the candidate comes
from a future `updated_parsed` and when it comes from the synthesized
current-time-plus-jitter path. -/
theorem C9_update_time_future_clamp (d : List (String × PyVal)) (fz : Nat)
    (attr : Option PyVal) (env : TimeEnv) (t e : Int)
    (hnolit : dictGetRaw d "update_time" = Option.none) :
    (dictGetRaw d "updated_parsed" = some (PyVal.timeStruct t) →
      parseTime (fmtTime t) = some e → e > env.now →
      (getItem ⟨d, fz, attr⟩ env "update_time").1
        = Except.ok (PyVal.str (fmtTime env.now)))
    ∧ (isStructOpt (dictGetRaw d "updated_parsed") = false →
      parseTime (fmtTime (env.now + env.jitter)) = some e → e > env.now →
      (getItem ⟨d, fz, attr⟩ env "update_time").1
        = Except.ok (PyVal.str (fmtTime env.now))) := by
  constructor
  · intro hup hparse hfut
    rw [getItem_update_time]
    simp only [get_update_time, hnolit, hup, hparse, hfut, if_pos]
    rfl
  · intro hns hparse hfut
    rw [getItem_update_time]
    simp only [get_update_time, hnolit]
    have hred : (match dictGetRaw d "updated_parsed" with
        | some (PyVal.timeStruct t) => fmtTime t
        | _ => fmtTime (env.now + env.jitter)) = fmtTime (env.now + env.jitter) := by
      rcases hup : dictGetRaw d "updated_parsed" with _ | v
      · rfl
      · rw [hup] at hns
        cases v <;> first | rfl | (exfalso; simp [isStructOpt] at hns)
    rw [hred]
    simp only [hparse]
    rw [if_pos hfut]
    rfl

/-- Witness for C9: both clamp paths at concrete inputs — a record carrying
`updated_parsed` at epoch 2000 observed at `now = 1000`, and a record with
no `updated_parsed` observed at `now = 1000` with jitter draw `+1`. -/
theorem C9_update_time_future_clamp_witness :
    (getItem ⟨[("updated_parsed", PyVal.timeStruct 2000)], 1, Option.none⟩
      ⟨1000, 0⟩ "update_time").1 = Except.ok (PyVal.str (fmtTime 1000))
    ∧ (getItem ⟨[], 1, Option.none⟩ ⟨1000, 1⟩ "update_time").1
      = Except.ok (PyVal.str (fmtTime 1000)) :=
  ⟨(C9_update_time_future_clamp [("updated_parsed", PyVal.timeStruct 2000)]
      1 Option.none ⟨1000, 0⟩ 2000 2000 rfl).1 rfl rfl (by decide),
   (C9_update_time_future_clamp [] 1 Option.none ⟨1000, 1⟩ 0 1001 rfl).2
      rfl rfl (by decide)⟩

/-- Decomposition of `take (findIdx p l)`: the prefix before the first
element satisfying `p`, everything in it refuting `p`, and the rest either
empty or led by a match. -/
theorem take_findIdx_decomp {α : Type} (p : α → Bool) (l : List α) :
    ∃ pre post, l = pre ++ post ∧ l.take (l.findIdx p) = pre
      ∧ (∀ r ∈ pre, p r = false)
      ∧ (post = [] ∨ ∃ m rest, post = m :: rest ∧ p m = true) := by
  induction l with
  | nil => exact ⟨[], [], rfl, rfl, by simp, Or.inl rfl⟩
  | cons a l ih =>
      by_cases hpa : p a = true
      · exact ⟨[], a :: l, rfl, by simp [List.findIdx_cons, hpa], by simp,
          Or.inr ⟨a, l, rfl, hpa⟩⟩
      · obtain ⟨pre, post, hsplit, htake, hpre, hpost⟩ := ih
        have hpa2 : p a = false := by simpa using hpa
        refine ⟨a :: pre, post, by simp [hsplit], ?_, ?_, hpost⟩
        · simp [List.findIdx_cons, hpa2, htake]
        · intro r hr
          rcases List.mem_cons.mp hr with h | h
          · rw [h]; exact hpa2
          · exact hpre r h

theorem findIdx_map_eq {α β : Type} (f : α → β) (p : β → Bool) (l : List α) :
    (l.map f).findIdx p = l.findIdx (fun a => p (f a)) := by
  induction l with
  | nil => rfl
  | cons a l ih => simp [List.findIdx_cons, ih]

theorem any_map_eq {α β : Type} (f : α → β) (p : β → Bool) (l : List α) :
    (l.map f).any p = l.any (fun a => p (f a)) := by
  induction l with
  | nil => rfl
  | cons a l ih => simp [ih]

/-- Claim C3: on records that all contain the identifier key, the filter
returns exactly the records strictly before the first record whose
identifier value equals (`pyEq`) the watermark; the whole list when no
identifier matches; and the empty list on empty input. -/
theorem C3_filter_new_stories (stories : List StoryRec)
    (identifier : String) (w : PyVal)
    (_hall : stories.all (fun r => (dictGetRaw r identifier).isSome) = true) :
    (∃ pre post, stories = pre ++ post
      ∧ (smart_new_story_filter stories identifier w).2 = pre
      ∧ (∀ r ∈ pre, pyEq (idVal identifier r) w = false)
      ∧ (post = [] ∨ ∃ m rest, post = m :: rest ∧ pyEq (idVal identifier m) w = true))
    ∧ (stories.any (fun r => pyEq (idVal identifier r) w) = false →
        (smart_new_story_filter stories identifier w).2 = stories)
    ∧ (stories = [] → (smart_new_story_filter stories identifier w).2 = []) := by
  have hview : (smart_new_story_filter stories identifier w).2
      = stories.take (stories.findIdx (fun r => pyEq (idVal identifier r) w)) := by
    unfold smart_new_story_filter
    simp only [any_map_eq, findIdx_map_eq, List.length_map]
    have hid : (fun (elm : StoryRec) => pyEq
        (match dictGetRaw elm identifier with
         | some v => v
         | Option.none => PyVal.none) w) = fun elm => pyEq (idVal identifier elm) w := by
      funext elm; rfl
    rw [hid]
    by_cases hany : stories.any (fun elm => pyEq (idVal identifier elm) w) = true
    · simp [hany]
    · have hany2 : stories.any (fun elm => pyEq (idVal identifier elm) w) = false := by
        simpa using hany
      have hnf : ∀ r ∈ stories, ¬ (pyEq (idVal identifier r) w = true) := by
        simpa [List.any_eq_false] using hany2
      rw [hany2]
      simp only [Bool.false_eq_true, if_false, List.take_length]
      rw [List.take_of_length_le]
      exact Nat.le_of_eq (List.findIdx_eq_length.mpr (by
        intro r hr
        simpa using hnf r hr)).symm
  refine ⟨?_, ?_, ?_⟩
  · obtain ⟨pre, post, h1, h2, h3, h4⟩ :=
      take_findIdx_decomp (fun r => pyEq (idVal identifier r) w) stories
    exact ⟨pre, post, h1, by rw [hview, h2], h3, h4⟩
  · intro hnone
    rw [hview]
    have : stories.findIdx (fun r => pyEq (idVal identifier r) w) = stories.length :=
      List.findIdx_eq_length.mpr (by
        intro r hr
        have := List.any_eq_false.mp hnone r hr
        simpa using this)
    rw [this, List.take_length]
  · intro h; rw [h]; rfl

/-- Witness for C3: the docstring's example — watermark `"Bannanna"` on
three titled records returns exactly the one record before the match. -/
theorem C3_filter_new_stories_witness :
    (smart_new_story_filter
      [[("title", PyVal.str "Apple")], [("title", PyVal.str "Bannanna")],
       [("title", PyVal.str "Grape")]] "title" (PyVal.str "Bannanna")).2
    = [[("title", PyVal.str "Apple")]] := by
  obtain ⟨pre, post, h1, h2, h3, h4⟩ :=
    (C3_filter_new_stories
      [[("title", PyVal.str "Apple")], [("title", PyVal.str "Bannanna")],
       [("title", PyVal.str "Grape")]] "title" (PyVal.str "Bannanna") rfl).1
  rw [h2]
  rcases h4 with h4 | ⟨m, rest, hpost, hm⟩
  · rw [h4] at h1
    simp at h1
    have := h3 [("title", PyVal.str "Bannanna")] (by rw [← h1]; simp)
    simp [idVal, dictGetRaw, pyEq] at this
  · rcases pre with _ | ⟨p1, pre2⟩
    · rw [hpost] at h1
      simp at h1
      obtain ⟨hm1, -⟩ := h1
      rw [← hm1] at hm
      simp [idVal, dictGetRaw, pyEq] at hm
    · rcases pre2 with _ | ⟨p2, pre3⟩
      · rw [hpost] at h1
        simp at h1
        obtain ⟨hp1, -⟩ := h1
        rw [hp1]
      · have := h3 p2 (by simp)
        rw [hpost] at h1
        simp at h1
        obtain ⟨-, hp2, -⟩ := h1
        rw [← hp2] at this
        simp [idVal, dictGetRaw, pyEq] at this

/-! ## Claim theorems: C5 -/

/-- Python `len`, defaulted to 0 where it raises (only ever applied under a
hypothesis ruling the raising case out). -/
def pyLenD (e : PyVal) : Nat := (pyLen e).getD 0

/-- The maximum `len` over a list of values. -/
def maxLenD : List PyVal → Nat
  | [] => 0
  | e :: rest => max (pyLenD e) (maxLenD rest)

/-- The first index whose element has `len` equal to `M`. -/
def idxOfLen : List PyVal → Nat → Nat
  | [], _ => 0
  | e :: rest, M => if pyLenD e = M then 0 else idxOfLen rest M + 1

theorem mem_le_maxLenD (l : List PyVal) : ∀ e ∈ l, pyLenD e ≤ maxLenD l := by
  induction l with
  | nil => intro e he; simp at he
  | cons a rest ih =>
      intro e he
      rcases List.mem_cons.mp he with h | h
      · rw [h]; exact le_max_left _ _
      · exact le_trans (ih e h) (le_max_right _ _)

theorem maxLenD_attained (l : List PyVal) (hne : l ≠ []) :
    ∃ e ∈ l, pyLenD e = maxLenD l := by
  induction l with
  | nil => exact absurd rfl hne
  | cons a rest ih =>
      rcases rest with _ | ⟨b, rest2⟩
      · exact ⟨a, List.mem_singleton.mpr rfl, by simp [maxLenD, pyLenD]⟩
      · obtain ⟨e, he, hee⟩ := ih (fun h => List.noConfusion h)
        by_cases hc : maxLenD (b :: rest2) ≤ pyLenD a
        · refine ⟨a, List.mem_cons_self a _, ?_⟩
          show pyLenD a = max (pyLenD a) (maxLenD (b :: rest2))
          rw [max_eq_left hc]
        · refine ⟨e, List.mem_cons_of_mem a he, ?_⟩
          rw [hee]
          show maxLenD (b :: rest2) = max (pyLenD a) (maxLenD (b :: rest2))
          rw [max_eq_right (le_of_not_le hc)]

theorem idxOfLen_spec (l : List PyVal) (M : Nat) (hM : ∃ e ∈ l, pyLenD e = M) :
    idxOfLen l M < l.length
    ∧ pyLenD (l.getD (idxOfLen l M) PyVal.none) = M
    ∧ ∀ j, j < idxOfLen l M → pyLenD (l.getD j PyVal.none) ≠ M := by
  induction l with
  | nil => simp at hM
  | cons a rest ih =>
      by_cases ha : pyLenD a = M
      · refine ⟨by simp [idxOfLen, ha], by simp [idxOfLen, ha], ?_⟩
        intro j hj
        simp [idxOfLen, ha] at hj
      · have hM2 : ∃ e ∈ rest, pyLenD e = M := by
          obtain ⟨e, he, hee⟩ := hM
          rcases List.mem_cons.mp he with h | h
          · rw [h] at hee; exact absurd hee ha
          · exact ⟨e, h, hee⟩
        obtain ⟨h1, h2, h3⟩ := ih hM2
        refine ⟨by simpa [idxOfLen, ha] using h1, by simpa [idxOfLen, ha] using h2, ?_⟩
        intro j hj
        rw [idxOfLen] at hj
        simp only [ha, if_false] at hj
        cases j with
        | zero => simpa using ha
        | succ j2 =>
            have : j2 < idxOfLen rest M := by omega
            simpa using h3 j2 this

/-- Characterization of the running-best loop of
`return_longest_list_element`: when every remaining element has a length,
the loop keeps `bi` if nothing exceeds `bl`, and otherwise lands on the
first index attaining the maximum length. -/
theorem rllAux_spec (l : List PyVal) :
    ∀ (i bi bl : Nat), (∀ e ∈ l, (pyLen e).isSome) →
    (maxLenD l ≤ bl → rllAux l i bi bl = Except.ok bi)
    ∧ (bl < maxLenD l →
        rllAux l i bi bl = Except.ok (i + idxOfLen l (maxLenD l))) := by
  induction l with
  | nil =>
      intro i bi bl _
      exact ⟨fun _ => rfl, fun h => absurd h (by simp [maxLenD])⟩
  | cons a rest ih =>
      intro i bi bl hall
      have hasome : (pyLen a).isSome := hall a (List.mem_cons_self a rest)
      obtain ⟨n, hn⟩ := Option.isSome_iff_exists.mp hasome
      have hnd : pyLenD a = n := by simp [pyLenD, hn]
      have hrest : ∀ e ∈ rest, (pyLen e).isSome :=
        fun e he => hall e (List.mem_cons_of_mem a he)
      have hunf : rllAux (a :: rest) i bi bl =
          if n > bl then rllAux rest (i + 1) i n else rllAux rest (i + 1) bi bl := by
        simp [rllAux, hn]
      constructor
      · intro hle
        have h1 : pyLenD a ≤ bl := le_trans (le_max_left _ _) hle
        have h2 : maxLenD rest ≤ bl := le_trans (le_max_right _ _) hle
        rw [hunf, if_neg (by omega)]
        exact (ih (i + 1) bi bl hrest).1 h2
      · intro hlt
        rw [hunf]
        by_cases hnbl : n > bl
        · rw [if_pos hnbl]
          by_cases hM : maxLenD rest ≤ n
          · have hmax : maxLenD (a :: rest) = n := by
              simp [maxLenD, hnd, max_eq_left hM]
            rw [(ih (i + 1) i n hrest).1 hM, hmax]
            simp [idxOfLen, hnd]
          · have hlt2 : n < maxLenD rest := lt_of_not_le hM
            have hmax : maxLenD (a :: rest) = maxLenD rest := by
              simp [maxLenD, hnd, max_eq_right (le_of_lt hlt2)]
            rw [(ih (i + 1) i n hrest).2 hlt2, hmax]
            have hne : pyLenD a ≠ maxLenD rest := by omega
            simp [idxOfLen, hne]
            omega
        · rw [if_neg hnbl]
          have hnle : n ≤ bl := by omega
          have hMgt : bl < maxLenD rest := by
            rcases max_cases (pyLenD a) (maxLenD rest) with ⟨hc, -⟩ | ⟨hc, -⟩
            · rw [maxLenD, hc, hnd] at hlt; omega
            · rw [maxLenD, hc] at hlt; exact hlt
          have hmax : maxLenD (a :: rest) = maxLenD rest := by
            have : pyLenD a ≤ maxLenD rest := by omega
            simp [maxLenD, max_eq_right this]
          rw [(ih (i + 1) bi bl hrest).2 hMgt, hmax]
          have hne : pyLenD a ≠ maxLenD rest := by omega
          simp [idxOfLen, hne]
          omega

theorem get?_eq_some_getD {α : Type} (l : List α) (j : Nat) (d : α)
    (h : j < l.length) : l.get? j = some (l.getD j d) := by
  rcases hg : l.get? j with _ | x
  · rw [List.get?_eq_none] at hg; omega
  · rw [List.getD_eq_getElem?_getD, ← List.get?_eq_getElem?, hg]
    rfl

theorem getD_mem {α : Type} (l : List α) (j : Nat) (d : α) (h : j < l.length) :
    l.getD j d ∈ l :=
  List.get?_mem (get?_eq_some_getD l j d h)

/-- `return_longest_list_element` on a non-empty list whose elements all
have a length returns the first element of maximal length. -/
theorem rlle_spec (l : List PyVal) (hne : l ≠ [])
    (hall : ∀ e ∈ l, (pyLen e).isSome) :
    ∃ i, i < l.length
      ∧ return_longest_list_element (PyVal.list l) = Except.ok (l.getD i PyVal.none)
      ∧ (∀ j, j < l.length →
          pyLenD (l.getD j PyVal.none) ≤ pyLenD (l.getD i PyVal.none))
      ∧ ∀ j, j < i → pyLenD (l.getD j PyVal.none) < pyLenD (l.getD i PyVal.none) := by
  obtain ⟨hlt, hget, hbefore⟩ :=
    idxOfLen_spec l (maxLenD l) (maxLenD_attained l hne)
  refine ⟨idxOfLen l (maxLenD l), hlt, ?_, ?_, ?_⟩
  · have hloop : rllAux l 0 0 0 = Except.ok (idxOfLen l (maxLenD l)) := by
      by_cases hM : maxLenD l = 0
      · have h0 : idxOfLen l (maxLenD l) = 0 := by
          by_contra hneq
          have h0lt : 0 < idxOfLen l (maxLenD l) := Nat.pos_of_ne_zero hneq
          have := hbefore 0 h0lt
          have h0len : 0 < l.length := by omega
          have hle := mem_le_maxLenD l _ (getD_mem l 0 PyVal.none h0len)
          omega
        rw [h0, (rllAux_spec l 0 0 0 hall).1 (by omega)]
      · simpa using (rllAux_spec l 0 0 0 hall).2 (by omega)
    have hsome := get?_eq_some_getD l (idxOfLen l (maxLenD l)) PyVal.none hlt
    rw [return_longest_list_element]
    simp only [hloop, hsome]
  · intro j hj
    rw [hget]
    exact mem_le_maxLenD l _ (getD_mem l j PyVal.none hj)
  · intro j hj
    rw [hget]
    have hjlen : j < l.length := lt_trans hj hlt
    have hle := mem_le_maxLenD l _ (getD_mem l j PyVal.none hjlen)
    have hne2 := hbefore j hj
    omega

/-- Whether a value is a Python `list` (the only argument shape
`return_longest_list_element` accepts). -/
def isPyList : PyVal → Bool
  | PyVal.list _ => true
  | _ => false

/-- Claim C5: `return_longest_list_element` raises `TypeError` on every
non-list argument; fails with `IndexError` (a defined error, not a value) on
the empty list; and on a non-empty list whose elements all have a length
returns the element of maximum length, first occurrence winning ties. -/
theorem C5_return_longest_list_element :
    (∀ v, isPyList v = false →
      return_longest_list_element v
        = Except.error (PyErr.typeError "received a list that wasn't of type <list>"))
    ∧ return_longest_list_element (PyVal.list []) = Except.error PyErr.indexError
    ∧ ∀ l : List PyVal, l ≠ [] → l.all (fun e => (pyLen e).isSome) = true →
        ∃ i, i < l.length
          ∧ return_longest_list_element (PyVal.list l) = Except.ok (l.getD i PyVal.none)
          ∧ (∀ j, j < l.length →
              pyLenD (l.getD j PyVal.none) ≤ pyLenD (l.getD i PyVal.none))
          ∧ ∀ j, j < i → pyLenD (l.getD j PyVal.none) < pyLenD (l.getD i PyVal.none) := by
  refine ⟨?_, rfl, ?_⟩
  · intro v hv
    cases v <;> first | rfl | simp [isPyList] at hv
  · intro l hne hall
    exact rlle_spec l hne (List.all_eq_true.mp hall)

/-- Witness for C5: the non-list error at `5`, and the docstring's
tie-breaking example list. -/
theorem C5_return_longest_list_element_witness :
    return_longest_list_element (PyVal.int 5)
      = Except.error (PyErr.typeError "received a list that wasn't of type <list>")
    ∧ ∃ i, i < 4
      ∧ return_longest_list_element (PyVal.list
          [PyVal.str "adam", PyVal.str "bob", PyVal.str "peter", PyVal.str "david"])
        = Except.ok ([PyVal.str "adam", PyVal.str "bob", PyVal.str "peter",
            PyVal.str "david"].getD i PyVal.none)
      ∧ (∀ j, j < 4 →
          pyLenD ([PyVal.str "adam", PyVal.str "bob", PyVal.str "peter",
            PyVal.str "david"].getD j PyVal.none)
          ≤ pyLenD ([PyVal.str "adam", PyVal.str "bob", PyVal.str "peter",
            PyVal.str "david"].getD i PyVal.none))
      ∧ ∀ j, j < i →
          pyLenD ([PyVal.str "adam", PyVal.str "bob", PyVal.str "peter",
            PyVal.str "david"].getD j PyVal.none)
          < pyLenD ([PyVal.str "adam", PyVal.str "bob", PyVal.str "peter",
            PyVal.str "david"].getD i PyVal.none) :=
  ⟨C5_return_longest_list_element.1 (PyVal.int 5) rfl,
   C5_return_longest_list_element.2.2
     [PyVal.str "adam", PyVal.str "bob", PyVal.str "peter", PyVal.str "david"]
     (fun h => List.noConfusion h) rfl⟩

/-! ## Claim theorems: C8 -/

/-- An entry of the `links` list that is a mapping (raw dict or nested
`SmartFeedParserDict`). -/
def isMappingEntry : PyVal → Bool
  | PyVal.dict _ => true
  | PyVal.smart _ => true
  | _ => false

/-- The value a `links` entry yields for key `k` under `entry[k]`: the raw
value from a dict, the escaped value from a nested record. -/
def entryLookup (e : PyVal) (k : String) : Option PyVal :=
  match e with
  | PyVal.dict de => dictGetRaw de k
  | PyVal.smart de => (dictGetRaw de k).map escape
  | _ => Option.none

/-- Specification-side first pass: the `href` of the first entry whose
`type` equals `"text/html"` and which has an `href`. -/
def specLink1 (es : List PyVal) : Option PyVal :=
  es.findSome? fun e =>
    match entryLookup e "type", entryLookup e "href" with
    | some tv, some h =>
        if pyEq tv (PyVal.str "text/html") then some h else Option.none
    | _, _ => Option.none

/-- Specification-side second pass: the `href` of the first entry that has
any `href`. -/
def specLink2 (es : List PyVal) : Option PyVal :=
  es.findSome? fun e => entryLookup e "href"

theorem ok_bind {α β : Type} (a : α) (f : α → Except PyErr β) :
    (Except.ok a : Except PyErr α) >>= f = f a := rfl

theorem linkPass1_spec (es : List PyVal) (hall : es.all isMappingEntry = true) :
    linkPass1 es = Except.ok (specLink1 es) := by
  induction es with
  | nil => rfl
  | cons e rest ih =>
      rw [List.all_cons, Bool.and_eq_true] at hall
      obtain ⟨he, hrest⟩ := hall
      have ihr := ih hrest
      cases e <;> simp [isMappingEntry] at he
      case dict de =>
        rcases hty : dictGetRaw de "type" with _ | tv
        · simp [linkPass1, subContains, hty, specLink1, List.findSome?_cons,
            entryLookup, ok_bind] at ihr ⊢
          exact ihr
        · by_cases hpe : pyEq tv (PyVal.str "text/html") = true
          · rcases hh : dictGetRaw de "href" with _ | h
            · simp [linkPass1, subContains, subGet, hty, hh, hpe, specLink1,
                List.findSome?_cons, entryLookup, ok_bind] at ihr ⊢
              exact ihr
            · simp [linkPass1, subContains, subGet, hty, hh, hpe, specLink1,
                List.findSome?_cons, entryLookup, ok_bind]
          · have hpe2 : pyEq tv (PyVal.str "text/html") = false := by
              simpa using hpe
            rcases hh : dictGetRaw de "href" with _ | h <;>
              · simp [linkPass1, subContains, subGet, hty, hh, hpe2, specLink1,
                  List.findSome?_cons, entryLookup, ok_bind] at ihr ⊢
                exact ihr
      case smart de =>
        rcases hty : dictGetRaw de "type" with _ | tv
        · simp [linkPass1, subContains, hty, specLink1, List.findSome?_cons,
            entryLookup, ok_bind] at ihr ⊢
          exact ihr
        · by_cases hpe : pyEq (escape tv) (PyVal.str "text/html") = true
          · rcases hh : dictGetRaw de "href" with _ | h
            · simp [linkPass1, subContains, subGet, hty, hh, hpe, specLink1,
                List.findSome?_cons, entryLookup, ok_bind] at ihr ⊢
              exact ihr
            · simp [linkPass1, subContains, subGet, hty, hh, hpe, specLink1,
                List.findSome?_cons, entryLookup, ok_bind]
          · have hpe2 : pyEq (escape tv) (PyVal.str "text/html") = false := by
              simpa using hpe
            rcases hh : dictGetRaw de "href" with _ | h <;>
              · simp [linkPass1, subContains, subGet, hty, hh, hpe2, specLink1,
                  List.findSome?_cons, entryLookup, ok_bind] at ihr ⊢
                exact ihr

theorem linkPass2_spec (es : List PyVal) (hall : es.all isMappingEntry = true) :
    linkPass2 es = Except.ok (specLink2 es) := by
  induction es with
  | nil => rfl
  | cons e rest ih =>
      rw [List.all_cons, Bool.and_eq_true] at hall
      obtain ⟨he, hrest⟩ := hall
      have ihr := ih hrest
      cases e <;> simp [isMappingEntry] at he
      case dict de =>
        rcases hh : dictGetRaw de "href" with _ | h <;>
          simp [linkPass2, subContains, subGet, hh, specLink2,
            List.findSome?_cons, entryLookup, ok_bind, ihr]
      case smart de =>
        rcases hh : dictGetRaw de "href" with _ | h <;>
          simp [linkPass2, subContains, subGet, hh, specLink2,
            List.findSome?_cons, entryLookup, ok_bind, ihr]

theorem getItem_link (r : SmartRec) (env : TimeEnv) :
    getItem r env "link" = ((get_link r.feed_dict).map escape, r) := rfl

/-- Claim C8: accessing `link` returns the `href` of the first `links` entry
typed `"text/html"` that has an `href`; failing that, the `href` of the
first entry with any `href`; failing that (or with `links` absent or empty),
the empty string.  Entries are mappings (raw dicts or nested records); the
result passes through `escape` like every `__getitem__` result. -/
theorem C8_link_resolution (d : List (String × PyVal)) (fz : Nat)
    (attr : Option PyVal) (env : TimeEnv) :
    (∀ es : List PyVal, dictGetRaw d "links" = some (PyVal.list es) →
      es.all isMappingEntry = true →
      (getItem ⟨d, fz, attr⟩ env "link").1 = Except.ok (escape
        (match specLink1 es with
         | some h => h
         | Option.none =>
             match specLink2 es with
             | some h => h
             | Option.none => PyVal.str "")))
    ∧ (dictGetRaw d "links" = Option.none →
        (getItem ⟨d, fz, attr⟩ env "link").1 = Except.ok (PyVal.str "")) := by
  constructor
  · intro es hlinks hes
    rw [getItem_link]
    show ((get_link d).map escape) = _
    rw [get_link]
    show (do
      let entries ← iterOf (getWithDefault d "links" (PyVal.list []))
      match ← linkPass1 entries with
      | some h => Except.ok h
      | Option.none =>
          match ← linkPass2 entries with
          | some h => Except.ok h
          | Option.none => Except.ok (PyVal.str "")).map escape = _
    rw [getWithDefault, hlinks]
    show (do
      let entries ← iterOf (escape (PyVal.list es))
      match ← linkPass1 entries with
      | some h => Except.ok h
      | Option.none =>
          match ← linkPass2 entries with
          | some h => Except.ok h
          | Option.none => Except.ok (PyVal.str "")).map escape = _
    have hesc : escape (PyVal.list es) = PyVal.list es := rfl
    rw [hesc]
    have hiter : iterOf (PyVal.list es) = Except.ok es := rfl
    rw [hiter]
    simp only [ok_bind]
    rw [linkPass1_spec es hes]
    rcases h1 : specLink1 es with _ | h
    · simp only [ok_bind]
      rw [linkPass2_spec es hes]
      rcases h2 : specLink2 es with _ | h
      · rfl
      · rfl
    · rfl
  · intro hlinks
    rw [getItem_link]
    show ((get_link d).map escape) = _
    rw [get_link]
    show (do
      let entries ← iterOf (getWithDefault d "links" (PyVal.list []))
      match ← linkPass1 entries with
      | some h => Except.ok h
      | Option.none =>
          match ← linkPass2 entries with
          | some h => Except.ok h
          | Option.none => Except.ok (PyVal.str "")).map escape = _
    rw [getWithDefault, hlinks]
    rfl

/-- Witness for C8: the specification's worked examples — a typed entry
beats a later untyped one; a lone untyped entry is used; absent `links`
yields the empty string. -/
theorem C8_link_resolution_witness :
    (getItem ⟨[("links", PyVal.list
        [PyVal.dict [("type", PyVal.str "text/html"), ("href", PyVal.str "A")],
         PyVal.dict [("href", PyVal.str "B")]])], 1, Option.none⟩
      ⟨0, 0⟩ "link").1 = Except.ok (PyVal.str "A")
    ∧ (getItem ⟨[("links", PyVal.list [PyVal.dict [("href", PyVal.str "B")]])],
        1, Option.none⟩ ⟨0, 0⟩ "link").1 = Except.ok (PyVal.str "B")
    ∧ (getItem ⟨[], 1, Option.none⟩ ⟨0, 0⟩ "link").1 = Except.ok (PyVal.str "") :=
  ⟨(C8_link_resolution [("links", PyVal.list
        [PyVal.dict [("type", PyVal.str "text/html"), ("href", PyVal.str "A")],
         PyVal.dict [("href", PyVal.str "B")]])] 1 Option.none ⟨0, 0⟩).1
      [PyVal.dict [("type", PyVal.str "text/html"), ("href", PyVal.str "A")],
       PyVal.dict [("href", PyVal.str "B")]] rfl rfl,
   (C8_link_resolution [("links", PyVal.list [PyVal.dict [("href", PyVal.str "B")]])]
      1 Option.none ⟨0, 0⟩).1 [PyVal.dict [("href", PyVal.str "B")]] rfl rfl,
   (C8_link_resolution [] 1 Option.none ⟨0, 0⟩).2 rfl⟩

/-! ## Claim theorems: C10 -/

/-- Values on which `len` succeeds and Python iteration succeeds (the shapes
`_get_stories` can digest). -/
def isLenIterable : PyVal → Bool
  | PyVal.str _ => true
  | PyVal.ustr _ => true
  | PyVal.list _ => true
  | PyVal.dict _ => true
  | PyVal.set _ => true
  | _ => false

/-- The backing value at `k`, when present, has a length and iterates. -/
def wellShapedKey (d : List (String × PyVal)) (k : String) : Bool :=
  match dictGetRaw d k with
  | Option.none => true
  | some v => isLenIterable v

/-- The backing `links` value, when present, is a list of mappings. -/
def wellShapedLinks (d : List (String × PyVal)) : Bool :=
  match dictGetRaw d "links" with
  | Option.none => true
  | some (PyVal.list es) => es.all isMappingEntry
  | some _ => false

/-- A backing mapping on which the reserved resolvers `stories` and `link`
cannot raise: the story-candidate keys have iterable values with a length
and `links` is a list of mappings (all four may simply be absent, as in the
empty record). -/
def wellShapedC10 (d : List (String × PyVal)) : Bool :=
  wellShapedKey d "items" && wellShapedKey d "entries"
    && wellShapedKey d "content" && wellShapedLinks d

theorem isLenIterable_escape (v : PyVal) :
    isLenIterable (escape v) = isLenIterable v := by
  cases v <;> rfl

theorem isLenIterable_pyLen (v : PyVal) (h : isLenIterable v = true) :
    (pyLen v).isSome := by
  cases v <;> first | rfl | simp [isLenIterable] at h

theorem isLenIterable_iterOf (v : PyVal) (h : isLenIterable v = true) :
    ∃ l, iterOf v = Except.ok l := by
  cases v <;> first | exact ⟨_, rfl⟩ | simp [isLenIterable] at h

theorem wellShapedKey_getWithDefault (d : List (String × PyVal)) (k : String)
    (h : wellShapedKey d k = true) :
    isLenIterable (getWithDefault d k (PyVal.list [])) = true := by
  rw [wellShapedKey] at h
  rw [getWithDefault]
  rcases hk : dictGetRaw d k with _ | v
  · rfl
  · rw [hk] at h
    rw [isLenIterable_escape]
    exact h

theorem get_stories_ok (d : List (String × PyVal))
    (hi : wellShapedKey d "items" = true) (he : wellShapedKey d "entries" = true)
    (hc : wellShapedKey d "content" = true) :
    ∃ w, get_stories d = Except.ok w := by
  have ha := wellShapedKey_getWithDefault d "items" hi
  have hb := wellShapedKey_getWithDefault d "entries" he
  have hcc := wellShapedKey_getWithDefault d "content" hc
  have hall3 : ∀ e ∈ [getWithDefault d "items" (PyVal.list []),
      getWithDefault d "entries" (PyVal.list []),
      getWithDefault d "content" (PyVal.list [])], isLenIterable e = true := by
    intro e hme
    rcases List.mem_cons.mp hme with h | hme2
    · rw [h]; exact ha
    rcases List.mem_cons.mp hme2 with h | hme3
    · rw [h]; exact hb
    rcases List.mem_cons.mp hme3 with h | hme4
    · rw [h]; exact hcc
    · simp at hme4
  obtain ⟨i, hilt, heq, -, -⟩ := rlle_spec
    [getWithDefault d "items" (PyVal.list []),
     getWithDefault d "entries" (PyVal.list []),
     getWithDefault d "content" (PyVal.list [])]
    (fun h => List.noConfusion h)
    (fun e hme => isLenIterable_pyLen e (hall3 e hme))
  have hmem := getD_mem
    [getWithDefault d "items" (PyVal.list []),
     getWithDefault d "entries" (PyVal.list []),
     getWithDefault d "content" (PyVal.list [])] i PyVal.none hilt
  obtain ⟨l, hl⟩ := isLenIterable_iterOf _ (hall3 _ hmem)
  refine ⟨PyVal.list (l.map make_smart_object), ?_⟩
  simp only [get_stories, heq, ok_bind, hl]

theorem get_link_ok (d : List (String × PyVal))
    (h : wellShapedLinks d = true) : ∃ w, get_link d = Except.ok w := by
  rw [wellShapedLinks] at h
  rcases hlk : dictGetRaw d "links" with _ | v
  · exact ⟨PyVal.str "", by simp only [get_link, getWithDefault, hlk]; rfl⟩
  · rw [hlk] at h
    cases v <;> first
      | exact Bool.noConfusion h
      | skip
    case list es =>
      have hes : es.all isMappingEntry = true := h
      have hesc : escape (PyVal.list es) = PyVal.list es := rfl
      have hiter : iterOf (PyVal.list es) = Except.ok es := rfl
      rcases h1 : specLink1 es with _ | hr
      · rcases h2 : specLink2 es with _ | hr2
        · refine ⟨PyVal.str "", ?_⟩
          simp only [get_link, getWithDefault, hlk, hesc, hiter, ok_bind,
            linkPass1_spec es hes, linkPass2_spec es hes, h1, h2]
        · refine ⟨hr2, ?_⟩
          simp only [get_link, getWithDefault, hlk, hesc, hiter, ok_bind,
            linkPass1_spec es hes, linkPass2_spec es hes, h1, h2]
      · refine ⟨hr, ?_⟩
        simp only [get_link, getWithDefault, hlk, hesc, hiter, ok_bind,
          linkPass1_spec es hes, h1]

theorem getItem_stories (r : SmartRec) (env : TimeEnv) :
    getItem r env "stories" = ((get_stories r.feed_dict).map escape, r) := rfl

theorem map_escape_ok (x : PyVal) :
    Except.map escape (Except.ok x : Except PyErr PyVal) = Except.ok (escape x) := rfl

/-- Claim C10 as amended: the computed content field is reserved under the
name `story_content`, not `content`.  On every record whose backing mapping
is well-shaped at the consulted keys — the empty record in particular — the
containment tests for `stories`, `link` and `update_time` are true (these
resolvers always succeed there); the mutation operations only rewrite the
backing mapping, so any set/update/delete sequence that keeps the backing
well-shaped preserves these containments, and deleting a reserved name
itself raises `AttributeError`, leaving the record unchanged. -/
theorem C10_reserved_containment (d : List (String × PyVal)) (fz : Nat)
    (attr : Option PyVal) (env : TimeEnv) (hws : wellShapedC10 d = true) :
    (containsKey ⟨d, fz, attr⟩ env "stories").1 = Except.ok true
    ∧ (containsKey ⟨d, fz, attr⟩ env "link").1 = Except.ok true
    ∧ (containsKey ⟨d, fz, attr⟩ env "update_time").1 = Except.ok true
    ∧ ∀ nm, reservedNames.contains nm = true →
        delItem ⟨d, fz, attr⟩ nm = Except.error PyErr.attributeError := by
  rw [wellShapedC10] at hws
  simp only [Bool.and_eq_true] at hws
  obtain ⟨⟨⟨hi, he⟩, hc⟩, hl⟩ := hws
  refine ⟨?_, ?_, ?_, ?_⟩
  · obtain ⟨w, hw⟩ := get_stories_ok d hi he hc
    simp [containsKey, getItem_stories, hw, map_escape_ok]
  · obtain ⟨w, hw⟩ := get_link_ok d hl
    simp [containsKey, getItem_link, hw, map_escape_ok]
  · rw [containsKey, getItem_update_time]
  · intro nm hnm
    rw [delItem, if_pos hnm]

/-- Claim C10, counterexample: on the empty record the containment test for
`"content"` returns `false`, not `true` — there is no `_get_content` method
(the computed content field is `story_content`) and the empty backing
mapping lacks the key, so `__getitem__` raises `KeyError`. -/
theorem C10_content_empty_counterexample :
    (containsKey ⟨[], 1, Option.none⟩ ⟨0, 0⟩ "content").1 = Except.ok false
    ∧ (Except.ok false : Except PyErr Bool) ≠ Except.ok true := by
  refine ⟨rfl, ?_⟩
  intro h
  injection h with h2
  exact Bool.noConfusion h2

/-- Witness for C10 as amended: the empty record is well-shaped, its three
reserved containment tests are true, and deleting `"link"` raises
`AttributeError`. -/
theorem C10_reserved_containment_witness :
    (containsKey ⟨[], 1, Option.none⟩ ⟨0, 0⟩ "stories").1 = Except.ok true
    ∧ (containsKey ⟨[], 1, Option.none⟩ ⟨0, 0⟩ "link").1 = Except.ok true
    ∧ (containsKey ⟨[], 1, Option.none⟩ ⟨0, 0⟩ "update_time").1 = Except.ok true
    ∧ delItem ⟨[], 1, Option.none⟩ "link" = Except.error PyErr.attributeError := by
  obtain ⟨h1, h2, h3, h4⟩ := C10_reserved_containment [] 1 Option.none ⟨0, 0⟩ rfl
  exact ⟨h1, h2, h3, h4 "link" rfl⟩

end SmartRss
